import Mathlib

/-!
Shallow embedding of the ffmpeg-service video rendering pipeline
(src/server.ts and src/unnamed/part_002) together with proofs about the
duration reconciliation, transition offsets, probe handling, post-mux
validation, text escaping, word wrapping and input validation logic.

Conventions of the embedding:
* JavaScript numbers are modelled as rationals (`ℚ`); `NaN` and probe
  failures are modelled by explicit constructors where the code
  distinguishes them.
* JavaScript strings that are only built (never inspected) are Lean
  `String`s; strings that are processed character by character
  (escaping, word wrapping) are `List Char`.
* `x || d` on an optional numeric field (where `undefined` and `0` are
  falsy) is `jsOr`.
-/

namespace FFmpegService

/-- JS `x || d` for an optional numeric field: `undefined` (here `none`)
and `0` are falsy and fall back to the default `d`. -/
def jsOr (x : Option ℚ) (d : ℚ) : ℚ :=
  match x with
  | none => d
  | some v => if v = 0 then d else v

/-- One request segment (element of `body.segments` in src/server.ts).
Fields that the verified logic never reads are kept for shape fidelity. -/
structure Segment where
  imageUrl? : Option String := none
  duration? : Option ℚ := none
  segType? : Option String := none
  textOverlay? : Option String := none

/-- src/server.ts:355 — `const duration = segment.duration || 3`, the
clip synthesis length of a segment. -/
def clipDuration (s : Segment) : ℚ :=
  jsOr s.duration? 3

/-- src/server.ts:555 — `segments.map(s => s.duration || 3)`, the
per-segment durations handed to `buildTransitionFilter`. -/
def transitionSegmentDurations (segs : List Segment) : List ℚ :=
  segs.map (fun s => jsOr s.duration? 3)

/-- src/server.ts:597 — the reconciliation stage duration of one segment:
`s.duration || 0` (note the default is `0`, not `3`). -/
def reconcileSegDuration (s : Segment) : ℚ :=
  jsOr s.duration? 0

/-- src/server.ts:597 —
`segments.reduce((sum, s) => sum + (s.duration || 0), 0)`, the design
video duration used by the duration reconciliation stage. -/
def calculatedVideoDuration (segs : List Segment) : ℚ :=
  (segs.map reconcileSegDuration).sum

/-- src/server.ts:326/331 —
`segments.reduce((sum, s) => sum + (s.duration || 3), 0)`, the estimated
audio duration substituted when the early probe fails. -/
def estimatedDuration (segs : List Segment) : ℚ :=
  (segs.map (fun s => jsOr s.duration? 3)).sum

/-- Outcome of running ffprobe on the audio file and parsing its stdout:
`ok d` when `parseFloat` produced the real number `d`, `nan` when it
produced `NaN`, `err` when the probe command itself threw. -/
inductive ProbeOutcome where
  | ok (d : ℚ)
  | nan
  | err
deriving DecidableEq

/-- src/server.ts:318-333 — the early (post-download) probe handler:
`parseFloat(stdout) || 0`; if the result is `0` or `NaN` (or the probe
threw), substitute the sum of declared segment durations and continue;
never fails. -/
def earlyAudioDuration (p : ProbeOutcome) (segs : List Segment) : ℚ :=
  match p with
  | .ok d => if d = 0 then estimatedDuration segs else d
  | .nan => estimatedDuration segs
  | .err => estimatedDuration segs

/-- Error message of src/server.ts:612 (inner messages elided). -/
def lateProbeErrorMsg : String :=
  "Failed to get audio duration - cannot proceed safely"

/-- src/server.ts:600-613 — the reconciliation-stage probe handler:
`!probedDuration || isNaN(probedDuration) || probedDuration <= 0` throws
`Invalid audio duration from ffprobe`, and any throw (including a probe
failure) is rethrown as a fatal `Failed to get audio duration` error;
no estimate is ever substituted here. -/
def lateAudioDuration (p : ProbeOutcome) : Except String ℚ :=
  match p with
  | .ok d => if d = 0 ∨ d ≤ 0 then .error lateProbeErrorMsg else .ok d
  | .nan => .error lateProbeErrorMsg
  | .err => .error lateProbeErrorMsg

/-- The corrective action chosen by the duration reconciliation stage. -/
inductive DurationFix where
  | noCorrection
  | extend (stopDuration : ℚ)
  | trim (target : ℚ)
deriving DecidableEq

/-- src/server.ts:617-653 — with
`durationDiff = actualAudioDuration - calculatedVideoDuration`:
inside `if (Math.abs(durationDiff) > 0.1)`, a positive diff extends the
video and a non-positive one trims it; otherwise nothing is done. -/
def reconcileDuration (audio videoCalc : ℚ) : DurationFix :=
  let diff := audio - videoCalc
  if |diff| > 0.1 then
    if diff > 0 then .extend diff else .trim audio
  else .noCorrection

/-- Digit padding used by the `toFixed(3)` model. -/
def pad3 (n : Nat) : String :=
  if n < 10 then "00" ++ toString n
  else if n < 100 then "0" ++ toString n
  else toString n

/-- Numeric value of JS `x.toFixed(3)`: `x` rounded to 3 decimals. -/
def toFixed3 (q : ℚ) : ℚ :=
  ((round (q * 1000) : ℤ) : ℚ) / 1000

/-- Rendering of JS `x.toFixed(3)` as a string. -/
def toFixed3Str (q : ℚ) : String :=
  let n : ℤ := round (q * 1000)
  let a : Nat := n.natAbs
  let core := toString (a / 1000) ++ "." ++ pad3 (a % 1000)
  if n < 0 then "-" ++ core else core

/-- src/server.ts:628-637 — the ffmpeg argument vector that extends the
video by cloning its final frame (`tpad` with `stop_mode=clone`,
re-encoding with libx264). -/
def extendArgs (inputPath outPath : String) (diff : ℚ) : List String :=
  ["-y", "-i", inputPath,
   "-vf", "tpad=stop_mode=clone:stop_duration=" ++ toFixed3Str diff,
   "-c:v", "libx264", "-preset", "ultrafast", "-crf", "23",
   "-pix_fmt", "yuv420p", outPath]

/-- src/server.ts:643-649 — the ffmpeg argument vector that trims the
video to the audio duration by stream copy (`-c:v copy`, no re-encode). -/
def trimArgs (inputPath outPath : String) (target : ℚ) : List String :=
  ["-y", "-i", inputPath, "-t", toFixed3Str target, "-c:v", "copy", outPath]

/-- src/server.ts:619-653 — the argument vector actually executed by the
duration matching step (`none` when no correction is performed). -/
def durationMatchArgs (audio videoCalc : ℚ) (inputPath outPath : String) :
    Option (List String) :=
  match reconcileDuration audio videoCalc with
  | .noCorrection => none
  | .extend d => some (extendArgs inputPath outPath d)
  | .trim tg => some (trimArgs inputPath outPath tg)

/-- Result of re-probing the muxed artifact (src/server.ts:715-718):
`hasAudio` is `stdout.includes("codec_type=audio")` and `finalDuration`
is the parsed `duration=` value (`0` when the regex finds none). -/
structure MuxProbe where
  hasAudio : Bool
  finalDuration : ℚ

/-- src/server.ts:722-732 — post-mux validation: fail when no audio
stream is present, fail when the final duration differs from the target
audio duration by more than `0.5`, otherwise pass. -/
def validateFinal (p : MuxProbe) (target : ℚ) : Except String Unit :=
  if !p.hasAudio then .error "CRITICAL: Final video has no audio track"
  else if |p.finalDuration - target| > 0.5 then
    .error "CRITICAL: Duration mismatch"
  else .ok ()

/-- src/server.ts:713-752 — after the mux the artifact is validated and
only then read and returned; a validation failure propagates as an error
and the artifact is never returned. -/
def afterMux (p : MuxProbe) (target : ℚ) (artifact : String) :
    Except String String :=
  match validateFinal p target with
  | .error e => .error e
  | .ok _ => .ok artifact

/-- Request body of `POST /render` (fields the validation logic reads).
`segments? = none` models a missing or non-array `segments` field;
`audioUrl? = none` models a missing `audioUrl`. -/
structure RequestBody where
  segments? : Option (List Segment) := none
  audioUrl? : Option String := none

/-- src/server.ts:204-211 — input validation of `processVideoAsync`:
`!segments || !Array.isArray(segments) || segments.length === 0` and
`!audioUrl` each log an error and `return` (yield `none`); otherwise the
pipeline proceeds with the segments and audio url. -/
def validInput (b : RequestBody) : Option (List Segment × String) :=
  match b.segments? with
  | none => none
  | some segs =>
    if segs.isEmpty then none
    else
      match b.audioUrl? with
      | none => none
      | some url => if url = "" then none else some (segs, url)

/-- Terminal JSON object written by the `/render` endpoint
(src/server.ts:158-184). -/
structure FinalResponse where
  success : Bool
  status : String
  videoUrl? : Option String
  error? : Option String
deriving DecidableEq

/-- src/server.ts:196-212 — `processVideoAsync` up to its validation:
on invalid input it returns `undefined` (modelled `ok none`) without
invoking any pipeline work; otherwise it runs the rest of the pipeline
(abstracted as `pipeline`), whose value or thrown error it propagates. -/
def processVideoModel (pipeline : List Segment → String → Except String String)
    (b : RequestBody) : Except String (Option String) :=
  match validInput b with
  | none => .ok none
  | some (segs, url) =>
    match pipeline segs url with
    | .ok videoUrl => .ok (some videoUrl)
    | .error e => .error e

/-- src/server.ts:149-185 — the `/render` endpoint: a resolved promise
yields `{success: true, ...result, status: "completed"}` (spreading
`undefined` adds nothing, so no `videoUrl` and no `error` field), and a
rejection yields `{success: false, error, status: "failed"}`. -/
def renderEndpoint (pipeline : List Segment → String → Except String String)
    (b : RequestBody) : FinalResponse :=
  match processVideoModel pipeline b with
  | .ok (some u) => ⟨true, "completed", some u, none⟩
  | .ok none => ⟨true, "completed", none, none⟩
  | .error e => ⟨false, "failed", none, some e⟩

/-- src/server.ts:346-509 — the clip synthesis loop: iteration `i`
builds `clip-i.mp4`; a successful ffmpeg run appends exactly that one
path to `clipPaths`, a failed run rethrows and aborts the whole job. -/
def synthLoop (execClip : Nat → Segment → Except String Unit) :
    Nat → List Segment → Except String (List String)
  | _, [] => .ok []
  | i, s :: rest =>
    let clipPath := "clip-" ++ toString i ++ ".mp4"
    match execClip i s with
    | .error e => .error ("Failed to create clip " ++ toString i ++ ": " ++ e)
    | .ok _ =>
      match synthLoop execClip (i + 1) rest with
      | .error e => .error e
      | .ok paths => .ok (clipPath :: paths)

/-- The whole clip synthesis stage, starting at segment index 0. -/
def synthesizeClips (execClip : Nat → Segment → Except String Unit)
    (segs : List Segment) : Except String (List String) :=
  synthLoop execClip 0 segs

/-- JS `d || 3` on a plain number (`0` is falsy): the defaulting applied
to each entry of `segmentDurations` inside `buildTransitionFilter`
(src/server.ts:857/872). -/
def defDur (d : ℚ) : ℚ :=
  if d = 0 then 3 else d

/-- src/server.ts:881-900 — `getTransitionName`: lookup of the xfade
transition identifier from the lowercased high-level type name,
defaulting to `fade`. -/
def getTransitionName (ty : String) : String :=
  let k := ty.toLower
  if k = "fade" then "fade"
  else if k = "crossfade" then "fade"
  else if k = "dissolve" then "fade"
  else if k = "wipe" then "wipeleft"
  else if k = "wipeleft" then "wipeleft"
  else if k = "wiperight" then "wiperight"
  else if k = "wipeup" then "wipeup"
  else if k = "wipedown" then "wipedown"
  else if k = "zoom" then "zoomin"
  else if k = "zoomin" then "zoomin"
  else if k = "zoomout" then "zoomout"
  else if k = "slide" then "slideleft"
  else if k = "slideleft" then "slideleft"
  else if k = "slideright" then "slideright"
  else "fade"

/-- src/server.ts:848-853 — the scale/pad normalization stage of input
`i` in the transition filter graph. -/
def scaleFilter (i : Nat) : String :=
  "[" ++ toString i ++
    ":v]scale=1080:1920:flags=lanczos:force_original_aspect_ratio=decrease,pad=1080:1920:(ow-iw)/2:(oh-ih)/2:black,setsar=1[v"
    ++ toString i ++ "]"

/-- src/server.ts:869 — one xfade stage: pads `(prev, current, output)`,
transition name, duration and offset rendered by the host's
number-to-string conversion `q2s`. -/
def xfadeFilterStr (q2s : ℚ → String) (tname : String) (t : ℚ)
    (pads : String × String × String) (offset : ℚ) : String :=
  "[" ++ pads.1 ++ "][" ++ pads.2.1 ++ "]xfade=transition=" ++ tname ++
    ":duration=" ++ q2s t ++ ":offset=" ++ q2s offset ++ "[" ++ pads.2.2 ++ "]"

/-- src/server.ts:859-873 — the transition loop (`for i = 1; i <
numClips; i++`), emitting one xfade stage per step: `k` is the number of
remaining iterations, `i` the loop index, `currentOutput` the threaded
output pad and `currentTime` the accumulated duration through clip
`i-1`; after emitting, the clip's own defaulted duration
(`segmentDurations[i] || 3`) is accumulated. -/
def xfadeLoop (q2s : ℚ → String) (tname : String) (t : ℚ) (numClips : Nat)
    (ds : List ℚ) : Nat → Nat → String → ℚ → List String
  | 0, _, _, _ => []
  | k + 1, i, currentOutput, currentTime =>
    let currentInput := "v" ++ toString i
    let outputName := if i = numClips - 1 then "v" else "v" ++ toString i ++ "out"
    let offset := currentTime - t
    xfadeFilterStr q2s tname t (currentOutput, currentInput, outputName) offset ::
      xfadeLoop q2s tname t numClips ds k (i + 1) outputName
        (currentTime + defDur (ds.getD i 0))

/-- The pad wiring of the transition loop, independent of durations. -/
def padsLoop (numClips : Nat) : Nat → Nat → String → List (String × String × String)
  | 0, _, _ => []
  | k + 1, i, currentOutput =>
    let currentInput := "v" ++ toString i
    let outputName := if i = numClips - 1 then "v" else "v" ++ toString i ++ "out"
    (currentOutput, currentInput, outputName) :: padsLoop numClips k (i + 1) outputName

/-- The offsets computed by the transition loop: the step at index `i`
emits `currentTime - t` and then accumulates `defDur (ds.getD i 0)`. -/
def offsetsLoop (t : ℚ) (ds : List ℚ) : Nat → Nat → ℚ → List ℚ
  | 0, _, _ => []
  | k + 1, i, currentTime =>
    (currentTime - t) :: offsetsLoop t ds k (i + 1) (currentTime + defDur (ds.getD i 0))

/-- The list of xfade offsets produced by `buildTransitionFilter` for
`numClips` clips: the loop starts at `i = 1` with `currentTime =
segmentDurations[0] || 3`. -/
def transitionOffsets (t : ℚ) (numClips : Nat) (ds : List ℚ) : List ℚ :=
  offsetsLoop t ds (numClips - 1) 1 (defDur (ds.getD 0 0))

/-- src/server.ts:835-876 — `buildTransitionFilter`: per-input scale/pad
stages followed by the chained xfade stages, joined with `;`. The `fps`
parameter is accepted and unused, as in the source. -/
def buildTransitionFilter (q2s : ℚ → String) (clipPaths : List String)
    (transitionType : String) (transitionDuration : ℚ) (fps : ℚ)
    (segmentDurations : List ℚ) : String :=
  let numClips := clipPaths.length
  let scaleFilters := (List.range numClips).map scaleFilter
  let xfades := xfadeLoop q2s (getTransitionName transitionType)
    transitionDuration numClips segmentDurations (numClips - 1) 1 "v0"
    (defDur (segmentDurations.getD 0 0))
  String.intercalate ";" (scaleFilters ++ xfades)

/-- The single-quote character (written via its code point to keep the
source free of bare apostrophes). -/
def quoteChar : Char := Char.ofNat 39

/-- The opening brace character. -/
def lbraceChar : Char := Char.ofNat 123

/-- The closing brace character. -/
def rbraceChar : Char := Char.ofNat 125

/-- JS `s.replace(/c/g, rep)` for a single-character pattern `c`:
every occurrence of `c` is replaced by `rep`. -/
def escChar (c : Char) (rep : List Char) (s : List Char) : List Char :=
  s.flatMap (fun x => if x = c then rep else [x])

/-- src/server.ts:415-426 — the escaping applied to the wrapped overlay
text before it is embedded in the drawtext filter: the eleven `replace`
calls in source order (backslash first, then colon, single quote, double
quote, parentheses, square brackets, braces, newline).  Note that no
`replace` in this chain escapes a comma. -/
def escapeTextDrawtext (s : List Char) : List Char :=
  escChar '\n' ['\\', 'n']
    (escChar rbraceChar ['\\', rbraceChar]
      (escChar lbraceChar ['\\', lbraceChar]
        (escChar ']' ['\\', ']']
          (escChar '[' ['\\', '[']
            (escChar ')' ['\\', ')']
              (escChar '(' ['\\', '(']
                (escChar '"' ['\\', '"']
                  (escChar quoteChar ['\\', quoteChar]
                    (escChar ':' ['\\', ':']
                      (escChar '\\' ['\\', '\\'] s))))))))))

/-- The per-character action of `escapeTextDrawtext` as a single pass:
each specially-handled character is preceded by exactly one backslash
(newline becomes the two characters backslash-`n`), all others — the
comma among them — pass through unchanged. -/
def escOneDrawtext (x : Char) : List Char :=
  if x = '\\' then ['\\', '\\']
  else if x = ':' then ['\\', ':']
  else if x = quoteChar then ['\\', quoteChar]
  else if x = '"' then ['\\', '"']
  else if x = '(' then ['\\', '(']
  else if x = ')' then ['\\', ')']
  else if x = '[' then ['\\', '[']
  else if x = ']' then ['\\', ']']
  else if x = lbraceChar then ['\\', lbraceChar]
  else if x = rbraceChar then ['\\', rbraceChar]
  else if x = '\n' then ['\\', 'n']
  else [x]

/-- JS `String.split(sep)` for a single-character separator: splits at
every occurrence, keeping empty pieces; the result is never empty. -/
def splitOnChar (c : Char) : List Char → List (List Char)
  | [] => [[]]
  | x :: xs =>
    match splitOnChar c xs with
    | [] => [[]]
    | p :: ps => if x = c then [] :: p :: ps else (x :: p) :: ps

/-- JS `Array.join(sep)` for a single-character separator. -/
def joinWith (c : Char) : List (List Char) → List Char
  | [] => []
  | [l] => l
  | l :: l₂ :: ls => l ++ c :: joinWith c (l₂ :: ls)

/-- src/server.ts:815-827 — the greedy word loop of `wrapLine`: if the
current line is nonempty and appending `" " + word` would exceed
`maxChars`, the current line is flushed and the word starts a new line;
otherwise the word is appended (or starts the first line); the final
nonempty current line is flushed at the end. -/
def wrapLoop (m : Nat) : List Char → List (List Char) → List (List Char)
  | currentLine, [] => if currentLine.isEmpty then [] else [currentLine]
  | currentLine, w :: ws =>
    if ¬currentLine.isEmpty ∧ currentLine.length + 1 + w.length > m then
      currentLine :: wrapLoop m w ws
    else
      wrapLoop m (if currentLine.isEmpty then w else currentLine ++ ' ' :: w) ws

/-- src/server.ts:808-830 — `wrapLine`: text within the limit is
returned unchanged, otherwise it is split into words at spaces, wrapped
greedily and re-joined with newlines. -/
def wrapLine (m : Nat) (text : List Char) : List Char :=
  if text.length ≤ m then text
  else joinWith '\n' (wrapLoop m [] (splitOnChar ' ' text))

/-- src/server.ts:796-803 — `wrapTextSimple`: text containing explicit
newlines is split at them, each line wrapped separately and the results
re-joined; otherwise the whole text is one line. -/
def wrapTextSimple (m : Nat) (text : List Char) : List Char :=
  if '\n' ∈ text then
    joinWith '\n' ((splitOnChar '\n' text).map (wrapLine m))
  else wrapLine m text

/-- Abstract syntax of the ffmpeg expressions emitted by
`buildAlphaExpression` (src/unnamed/part_002:325-342): the bare `0` and
`1` literals of the template, `toFixed(3)` numeric literals, the time
variable `t`, subtraction, division, `lt` and `if`. -/
inductive FExpr where
  | zero
  | one
  | num (q : ℚ)
  | tvar
  | sub (a b : FExpr)
  | div (a b : FExpr)
  | ltE (a b : FExpr)
  | ifE (c a b : FExpr)

/-- Evaluation of an ffmpeg expression at time `t` under the engine's
semantics: `if(c, a, b)` evaluates the condition and then only the
chosen branch; a division whose divisor evaluates to `0` is undefined
(`none`); `lt` yields `1` or `0`. -/
def evalE : FExpr → ℚ → Option ℚ
  | .zero, _ => some 0
  | .one, _ => some 1
  | .num q, _ => some q
  | .tvar, t => some t
  | .sub a b, t =>
    match evalE a t, evalE b t with
    | some x, some y => some (x - y)
    | _, _ => none
  | .div a b, t =>
    match evalE a t, evalE b t with
    | some x, some y => if y = 0 then none else some (x / y)
    | _, _ => none
  | .ltE a b, t =>
    match evalE a t, evalE b t with
    | some x, some y => some (if x < y then 1 else 0)
    | _, _ => none
  | .ifE c a b, t =>
    match evalE c t with
    | some v => if v ≠ 0 then evalE a t else evalE b t
    | none => none

/-- Rendering of an expression in the textual conventions of the
`buildAlphaExpression` template: commas escaped as `\\,` inside `lt` and
`if`, a subtraction parenthesized when it is a division's numerator
(`(t-X)/Y`) and bare otherwise (`1-(t-X)/Y`), `toFixed(3)` literals. -/
def renderE : FExpr → String
  | .zero => "0"
  | .one => "1"
  | .num q => toFixed3Str q
  | .tvar => "t"
  | .div (.sub a b) c =>
    "(" ++ renderE a ++ "-" ++ renderE b ++ ")/" ++ renderE c
  | .div a b => renderE a ++ "/" ++ renderE b
  | .sub a b => renderE a ++ "-" ++ renderE b
  | .ltE a b => "lt(" ++ renderE a ++ "\\," ++ renderE b ++ ")"
  | .ifE c a b =>
    "if(" ++ renderE c ++ "\\," ++ renderE a ++ "\\," ++ renderE b ++ ")"

/-- src/unnamed/part_002:325-342 — the expression built by
`buildAlphaExpression`, as syntax: `0` before the fade-in window, a
linear ramp divided by `fadeInDur` across it, `1` until the fade-out
window, a falling ramp divided by `fadeOutDur` across it, `0` after;
all numeric literals rendered through `toFixed(3)`. -/
def buildAlphaExpr (fadeInStart fadeInEnd fadeOutStart fadeOutEnd : ℚ) : FExpr :=
  let fadeInDur := fadeInEnd - fadeInStart
  let fadeOutDur := fadeOutEnd - fadeOutStart
  .ifE (.ltE .tvar (.num (toFixed3 fadeInStart))) .zero
    (.ifE (.ltE .tvar (.num (toFixed3 fadeInEnd)))
      (.div (.sub .tvar (.num (toFixed3 fadeInStart))) (.num (toFixed3 fadeInDur)))
      (.ifE (.ltE .tvar (.num (toFixed3 fadeOutStart))) .one
        (.ifE (.ltE .tvar (.num (toFixed3 fadeOutEnd)))
          (.sub .one
            (.div (.sub .tvar (.num (toFixed3 fadeOutStart))) (.num (toFixed3 fadeOutDur))))
          .zero)))

/-- src/unnamed/part_002:325-342 — the literal string built by
`buildAlphaExpression` (escaped commas `\\,` as in the source, wrapped
in single quotes). -/
def buildAlphaExpression (fadeInStart fadeInEnd fadeOutStart fadeOutEnd : ℚ) : String :=
  let fadeInDur := fadeInEnd - fadeInStart
  let fadeOutDur := fadeOutEnd - fadeOutStart
  let expr :=
    "if(lt(t\\," ++ toFixed3Str fadeInStart ++ ")\\,0\\," ++
    "if(lt(t\\," ++ toFixed3Str fadeInEnd ++ ")\\,(t-" ++ toFixed3Str fadeInStart ++
      ")/" ++ toFixed3Str fadeInDur ++ "\\," ++
    "if(lt(t\\," ++ toFixed3Str fadeOutStart ++ ")\\,1\\," ++
    "if(lt(t\\," ++ toFixed3Str fadeOutEnd ++ ")\\,1-(t-" ++ toFixed3Str fadeOutStart ++
      ")/" ++ toFixed3Str fadeOutDur ++ "\\,0))))"
  String.singleton quoteChar ++ expr ++ String.singleton quoteChar

/-- A segment whose duration field is absent. -/
def emptySegment : Segment := {}

/-- C1: Duration reconciliation trichotomy — with
`diff = audioDuration - sumOfSegmentDurations`: if `|diff| ≤ 0.1` the
video is left uncorrected; if `diff > 0.1` the video is extended by
cloning its final frame for `diff` seconds (re-encoded, tpad
`stop_mode=clone` with `stop_duration=diff`); if `diff < -0.1` the video
is trimmed to exactly the audio duration by stream copy. -/
theorem c1_duration_reconciliation_trichotomy (audio videoCalc : ℚ)
    (inputPath outPath : String) :
    (|audio - videoCalc| ≤ 0.1 →
      reconcileDuration audio videoCalc = .noCorrection ∧
      durationMatchArgs audio videoCalc inputPath outPath = none) ∧
    (0.1 < audio - videoCalc →
      reconcileDuration audio videoCalc = .extend (audio - videoCalc) ∧
      durationMatchArgs audio videoCalc inputPath outPath =
        some (extendArgs inputPath outPath (audio - videoCalc))) ∧
    (audio - videoCalc < -0.1 →
      reconcileDuration audio videoCalc = .trim audio ∧
      durationMatchArgs audio videoCalc inputPath outPath =
        some (trimArgs inputPath outPath audio)) := by
  refine ⟨fun h => ?_, fun h => ?_, fun h => ?_⟩
  · have hc : ¬ (|audio - videoCalc| > 0.1) := not_lt.mpr h
    have hr : reconcileDuration audio videoCalc = .noCorrection := by
      simp only [reconcileDuration]
      rw [if_neg hc]
    exact ⟨hr, by unfold durationMatchArgs; rw [hr]⟩
  · have hpos : 0 < audio - videoCalc := lt_trans (by norm_num) h
    have habs : (0.1 : ℚ) < |audio - videoCalc| := by rwa [abs_of_pos hpos]
    have hr : reconcileDuration audio videoCalc = .extend (audio - videoCalc) := by
      simp only [reconcileDuration]
      rw [if_pos habs, if_pos hpos]
    exact ⟨hr, by unfold durationMatchArgs; rw [hr]⟩
  · have hneg : audio - videoCalc < 0 := lt_trans h (by norm_num)
    have habs : (0.1 : ℚ) < |audio - videoCalc| := by
      rw [abs_of_neg hneg]; linarith
    have hnpos : ¬ (0 < audio - videoCalc) := not_lt.mpr (le_of_lt hneg)
    have hr : reconcileDuration audio videoCalc = .trim audio := by
      simp only [reconcileDuration]
      rw [if_pos habs, if_neg hnpos]
    exact ⟨hr, by unfold durationMatchArgs; rw [hr]⟩

/-- Witness for C1 at the spec's own test values: audio `12.4`
versus video `10.0` extends, `9.0` versus `10.0` trims, and `10.05`
versus `10.0` is within tolerance. -/
theorem c1_duration_reconciliation_witness :
    reconcileDuration 10.05 10 = .noCorrection ∧
    reconcileDuration 12.4 10 = .extend (12.4 - 10) ∧
    reconcileDuration 9 10 = .trim 9 := by
  have h1 : |(10.05 : ℚ) - 10| ≤ 0.1 := by
    rw [show (10.05 : ℚ) - 10 = 0.05 by norm_num, abs_of_pos] <;> norm_num
  have h2 : (0.1 : ℚ) < 12.4 - 10 := by norm_num
  have h3 : (9 : ℚ) - 10 < -0.1 := by norm_num
  exact ⟨((c1_duration_reconciliation_trichotomy 10.05 10 "final.mp4"
      "video-matched.mp4").1 h1).1,
    ((c1_duration_reconciliation_trichotomy 12.4 10 "final.mp4"
      "video-matched.mp4").2.1 h2).1,
    ((c1_duration_reconciliation_trichotomy 9 10 "final.mp4"
      "video-matched.mp4").2.2 h3).1⟩

/-- C3: Two-phase probe fatality — the early (post-download) probe
substitutes the sum of declared segment durations on `NaN`, `0` or a
probe failure and continues, while the reconciliation-stage probe fails
the job on a `NaN`, non-positive or failed result without substituting
any estimate. -/
theorem c3_two_phase_probe_fatality (segs : List Segment) (d : ℚ) :
    earlyAudioDuration .nan segs = estimatedDuration segs ∧
    earlyAudioDuration .err segs = estimatedDuration segs ∧
    earlyAudioDuration (.ok 0) segs = estimatedDuration segs ∧
    (d ≤ 0 → lateAudioDuration (.ok d) = .error lateProbeErrorMsg) ∧
    lateAudioDuration .nan = .error lateProbeErrorMsg ∧
    lateAudioDuration .err = .error lateProbeErrorMsg := by
  refine ⟨rfl, rfl, by simp [earlyAudioDuration], fun h => ?_, rfl, rfl⟩
  simp [lateAudioDuration, h]

/-- Witness for C3: a zero-duration early probe yields the estimate and
a negative late probe is fatal. -/
theorem c3_two_phase_probe_witness :
    earlyAudioDuration (.ok 0) [emptySegment] = estimatedDuration [emptySegment] ∧
    lateAudioDuration (.ok (-1)) = .error lateProbeErrorMsg :=
  ⟨(c3_two_phase_probe_fatality [emptySegment] (-1)).2.2.1,
   (c3_two_phase_probe_fatality [emptySegment] (-1)).2.2.2.1 (by norm_num)⟩

/-- C4: Post-mux validation — the re-probed artifact is returned exactly
when an audio stream is present and the probed final duration is within
`0.5` seconds of the target audio duration; otherwise the job fails with
an error and the artifact is never returned. -/
theorem c4_post_mux_validation (p : MuxProbe) (target : ℚ) (artifact b : String) :
    afterMux p target artifact = .ok b ↔
      b = artifact ∧ p.hasAudio = true ∧ |p.finalDuration - target| ≤ 0.5 := by
  by_cases ha : p.hasAudio = true <;>
    by_cases hd : |p.finalDuration - target| > 0.5
  · have hle : ¬ |p.finalDuration - target| ≤ 0.5 := not_le.mpr hd
    simp [afterMux, validateFinal, ha, hd, hle]
  · have hle : |p.finalDuration - target| ≤ 0.5 := not_lt.mp hd
    simp [afterMux, validateFinal, ha, hd, hle, eq_comm]
  · have hfa : p.hasAudio = false := by simpa using ha
    simp [afterMux, validateFinal, hfa]
  · have hfa : p.hasAudio = false := by simpa using ha
    simp [afterMux, validateFinal, hfa]

/-- Counterexample for C7: the claim says every consumption site treats
a missing duration as 3 seconds, but the reconciliation-stage sum
(src/server.ts:597, `s.duration || 0`) treats it as `0`: a single
segment without a duration synthesizes a 3-second clip while the
reconciliation sum is `0`. -/
theorem c7_counterexample_reconcile_default_zero :
    clipDuration emptySegment = 3 ∧
    calculatedVideoDuration [emptySegment] = 0 ∧ (0 : ℚ) ≠ 3 := by
  refine ⟨rfl, ?_, by norm_num⟩
  simp [calculatedVideoDuration, reconcileSegDuration, jsOr, emptySegment]

/-- C7 (amended): at clip synthesis and at the transition-offset
durations a missing or zero segment duration is treated as 3 seconds,
but the sum used as the design video duration at the reconciliation
stage treats a missing or zero duration as 0 seconds. -/
theorem c7_amended_duration_defaults (s : Segment)
    (h : s.duration? = none ∨ s.duration? = some 0) :
    clipDuration s = 3 ∧ transitionSegmentDurations [s] = [3] ∧
    reconcileSegDuration s = 0 := by
  rcases h with h | h <;>
    simp [clipDuration, transitionSegmentDurations, reconcileSegDuration, jsOr, h]

/-- Witness for C7 (amended) at a segment with no duration field. -/
theorem c7_amended_duration_witness :
    clipDuration emptySegment = 3 ∧
    transitionSegmentDurations [emptySegment] = [3] ∧
    reconcileSegDuration emptySegment = 0 :=
  c7_amended_duration_defaults emptySegment (Or.inl rfl)

/-- C9 (code behaviour at the failing input): for a missing, non-array
or empty `segments` field, or a missing `audioUrl`, `processVideoAsync`
returns `undefined` without performing any pipeline work (the response
is the same for every possible pipeline), and the `/render` endpoint
then emits `{success: true, status: "completed"}` with no `videoUrl`
and no `error` — a success-shaped response, not a structured error. -/
theorem c9_invalid_input_reports_success
    (pipeline : List Segment → String → Except String String) :
    renderEndpoint pipeline { segments? := none, audioUrl? := some "https://e/a.mp3" }
        = ⟨true, "completed", none, none⟩ ∧
    renderEndpoint pipeline { segments? := some [], audioUrl? := some "https://e/a.mp3" }
        = ⟨true, "completed", none, none⟩ ∧
    renderEndpoint pipeline { segments? := some [emptySegment], audioUrl? := none }
        = ⟨true, "completed", none, none⟩ :=
  ⟨rfl, rfl, rfl⟩

/-- C10: Implicit clip-count invariant — whenever the clip synthesis
loop completes without throwing, the number of produced clip paths
equals the number of segments, so the warn-and-continue mismatch branch
is unreachable. -/
theorem c10_clip_count_invariant (execClip : Nat → Segment → Except String Unit)
    (segs : List Segment) (paths : List String)
    (h : synthesizeClips execClip segs = .ok paths) :
    paths.length = segs.length := by
  have key : ∀ (l : List Segment) (i : Nat) (ps : List String),
      synthLoop execClip i l = .ok ps → ps.length = l.length := by
    intro l
    induction l with
    | nil =>
      intro i ps h
      simp only [synthLoop] at h
      cases h
      rfl
    | cons s rest ih =>
      intro i ps h
      cases hx : execClip i s with
      | error e => simp [synthLoop, hx] at h
      | ok u =>
        cases hy : synthLoop execClip (i + 1) rest with
        | error e => simp [synthLoop, hx, hy] at h
        | ok ps' =>
          simp only [synthLoop, hx, hy] at h
          cases h
          simp [ih (i + 1) ps' hy]
  exact key segs 0 paths h

/-- Witness for C10: two segments whose syntheses succeed produce
exactly two clip paths. -/
theorem c10_clip_count_witness :
    (["clip-0.mp4", "clip-1.mp4"] : List String).length =
      ([emptySegment, emptySegment] : List Segment).length :=
  c10_clip_count_invariant (fun _ _ => .ok ()) [emptySegment, emptySegment]
    ["clip-0.mp4", "clip-1.mp4"] (by rfl)

theorem escapeTextDrawtext_append (u v : List Char) :
    escapeTextDrawtext (u ++ v) = escapeTextDrawtext u ++ escapeTextDrawtext v := by
  simp [escapeTextDrawtext, escChar, List.flatMap_append]

theorem escapeTextDrawtext_singleton (x : Char) :
    escapeTextDrawtext [x] = escOneDrawtext x := by
  by_cases h1 : x = '\\'
  · subst h1; decide
  · by_cases h2 : x = ':'
    · subst h2; decide
    · by_cases h3 : x = quoteChar
      · subst h3; decide
      · by_cases h4 : x = '"'
        · subst h4; decide
        · by_cases h5 : x = '('
          · subst h5; decide
          · by_cases h6 : x = ')'
            · subst h6; decide
            · by_cases h7 : x = '['
              · subst h7; decide
              · by_cases h8 : x = ']'
                · subst h8; decide
                · by_cases h9 : x = lbraceChar
                  · subst h9; decide
                  · by_cases h10 : x = rbraceChar
                    · subst h10; decide
                    · by_cases h11 : x = '\n'
                      · subst h11; decide
                      · simp [escapeTextDrawtext, escChar, escOneDrawtext,
                          h1, h2, h3, h4, h5, h6, h7, h8, h9, h10, h11]

/-- Counterexample for C5: the escaping applied before embedding the
overlay text in the drawtext filter (src/server.ts:415-426) does not
escape the comma — a comma passes through unchanged. -/
theorem c5_counterexample_comma_unescaped :
    escapeTextDrawtext [','] = [','] ∧ ([','] : List Char) ≠ ['\\', ','] := by
  decide

/-- C5 (amended): the escaping applied before embedding the overlay
text in the drawtext filter escapes backslash, colon, single quote,
double quote, parentheses, square brackets, braces and newline — but
not the comma — and applies the backslash escape first, so the whole
chain acts as a single left-to-right pass in which no inserted escape
character is ever re-escaped. -/
theorem c5_amended_escape_single_pass (s : List Char) :
    escapeTextDrawtext s = s.flatMap escOneDrawtext := by
  induction s with
  | nil => rfl
  | cons x xs ih =>
    have hx : escapeTextDrawtext (x :: xs)
        = escapeTextDrawtext [x] ++ escapeTextDrawtext xs := by
      rw [← escapeTextDrawtext_append]; rfl
    rw [hx, escapeTextDrawtext_singleton, ih, List.flatMap_cons]

theorem splitOnChar_cons_eq (c x : Char) (xs : List Char) (q : List Char)
    (qs : List (List Char)) (h : splitOnChar c xs = q :: qs) :
    splitOnChar c (x :: xs) =
      if x = c then [] :: q :: qs else (x :: q) :: qs := by
  simp only [splitOnChar, h]

theorem splitOnChar_ne_nil (c : Char) (s : List Char) : splitOnChar c s ≠ [] := by
  induction s with
  | nil => simp [splitOnChar]
  | cons x xs ih =>
    simp only [splitOnChar]
    cases h : splitOnChar c xs with
    | nil => simp
    | cons p ps => by_cases hx : x = c <;> simp [hx]

theorem sep_not_mem_splitOnChar (c : Char) (s : List Char) :
    ∀ p ∈ splitOnChar c s, c ∉ p := by
  induction s with
  | nil =>
    intro p hp
    simp only [splitOnChar, List.mem_singleton] at hp
    subst hp; simp
  | cons x xs ih =>
    intro p hp
    cases h : splitOnChar c xs with
    | nil => exact absurd h (splitOnChar_ne_nil c xs)
    | cons q qs =>
      rw [splitOnChar_cons_eq c x xs q qs h] at hp
      by_cases hx : x = c
      · rw [if_pos hx] at hp
        rcases List.mem_cons.mp hp with hp | hp
        · subst hp; simp
        · exact ih p (by rw [h]; exact hp)
      · rw [if_neg hx] at hp
        rcases List.mem_cons.mp hp with hp | hp
        · subst hp
          intro hc
          rcases List.mem_cons.mp hc with hc | hc
          · exact hx hc.symm
          · exact ih q (by rw [h]; exact List.mem_cons_self q qs) hc
        · exact ih p (by rw [h]; exact List.mem_cons_of_mem q hp)

theorem mem_of_mem_splitOnChar (c : Char) (s : List Char) :
    ∀ p ∈ splitOnChar c s, ∀ a ∈ p, a ∈ s := by
  induction s with
  | nil =>
    intro p hp a ha
    simp only [splitOnChar, List.mem_singleton] at hp
    subst hp; simp at ha
  | cons x xs ih =>
    intro p hp a ha
    cases h : splitOnChar c xs with
    | nil => exact absurd h (splitOnChar_ne_nil c xs)
    | cons q qs =>
      rw [splitOnChar_cons_eq c x xs q qs h] at hp
      by_cases hx : x = c
      · rw [if_pos hx] at hp
        rcases List.mem_cons.mp hp with hp | hp
        · subst hp; simp at ha
        · exact List.mem_cons_of_mem x (ih p (by rw [h]; exact hp) a ha)
      · rw [if_neg hx] at hp
        rcases List.mem_cons.mp hp with hp | hp
        · subst hp
          rcases List.mem_cons.mp ha with ha | ha
          · exact ha ▸ List.mem_cons_self x xs
          · exact List.mem_cons_of_mem x
              (ih q (by rw [h]; exact List.mem_cons_self q qs) a ha)
        · exact List.mem_cons_of_mem x
            (ih p (by rw [h]; exact List.mem_cons_of_mem q hp) a ha)

theorem splitOnChar_of_not_mem (c : Char) (s : List Char) (h : c ∉ s) :
    splitOnChar c s = [s] := by
  induction s with
  | nil => rfl
  | cons x xs ih =>
    have hx : ¬ x = c := fun hc => h (hc ▸ List.mem_cons_self x xs)
    have hxs : c ∉ xs := fun hc => h (List.mem_cons_of_mem x hc)
    simp only [splitOnChar, ih hxs]
    rw [if_neg hx]

theorem splitOnChar_append (c : Char) (x y : List Char) :
    splitOnChar c (x ++ c :: y) = splitOnChar c x ++ splitOnChar c y := by
  induction x with
  | nil =>
    simp only [List.nil_append, splitOnChar]
    cases h : splitOnChar c y with
    | nil => exact absurd h (splitOnChar_ne_nil c y)
    | cons q qs => simp
  | cons a x ih =>
    cases h : splitOnChar c x with
    | nil => exact absurd h (splitOnChar_ne_nil c x)
    | cons q qs =>
      have hin : splitOnChar c (x ++ c :: y) = q :: (qs ++ splitOnChar c y) := by
        rw [ih, h]; rfl
      rw [List.cons_append,
        splitOnChar_cons_eq c a (x ++ c :: y) q (qs ++ splitOnChar c y) hin,
        splitOnChar_cons_eq c a x q qs h]
      by_cases ha : a = c
      · rw [if_pos ha, if_pos ha]; simp
      · rw [if_neg ha, if_neg ha]; simp

theorem splitOnChar_joinWith (c : Char) (ls : List (List Char)) (h : ls ≠ []) :
    splitOnChar c (joinWith c ls) = ls.flatMap (splitOnChar c) := by
  induction ls with
  | nil => exact absurd rfl h
  | cons l ls ih =>
    cases ls with
    | nil => simp [joinWith, List.flatMap_cons]
    | cons l₂ ls₂ =>
      simp only [joinWith]
      rw [splitOnChar_append, ih (by simp)]
      simp [List.flatMap_cons, List.append_assoc]

theorem flatMap_eq_self_of_singleton {α : Type} (ls : List (List α))
    (f : List α → List (List α)) (h : ∀ p ∈ ls, f p = [p]) :
    ls.flatMap f = ls := by
  induction ls with
  | nil => rfl
  | cons p ps ih =>
    rw [List.flatMap_cons, h p (List.mem_cons_self p ps),
      ih (fun q hq => h q (List.mem_cons_of_mem p hq))]
    rfl

theorem wrapLoop_mem (m : Nat) (W : List (List Char)) :
    ∀ (ws : List (List Char)) (cl : List Char),
      (∀ w ∈ ws, w ∈ W) → (cl = [] ∨ cl.length ≤ m ∨ cl ∈ W) →
      ∀ l ∈ wrapLoop m cl ws, l.length ≤ m ∨ l ∈ W := by
  intro ws
  induction ws with
  | nil =>
    intro cl _ hcl l hl
    simp only [wrapLoop] at hl
    by_cases hce : cl.isEmpty
    · rw [if_pos hce] at hl
      simp at hl
    · rw [if_neg hce] at hl
      rcases List.mem_singleton.mp hl with rfl
      rcases hcl with rfl | hcl
      · simp at hce
      · exact hcl
  | cons w ws ih =>
    intro cl hws hcl l hl
    simp only [wrapLoop] at hl
    by_cases hcond : ¬cl.isEmpty ∧ cl.length + 1 + w.length > m
    · rw [if_pos hcond] at hl
      rcases List.mem_cons.mp hl with rfl | hl₂
      · rcases hcl with rfl | hcl
        · simp at hcond
        · exact hcl
      · exact ih w (fun w₂ hw₂ => hws w₂ (List.mem_cons_of_mem w hw₂))
          (Or.inr (Or.inr (hws w (List.mem_cons_self w ws)))) l hl₂
    · rw [if_neg hcond] at hl
      refine ih _ (fun w₂ hw₂ => hws w₂ (List.mem_cons_of_mem w hw₂)) ?_ l hl
      by_cases hce : cl.isEmpty
      · rw [if_pos hce]
        exact Or.inr (Or.inr (hws w (List.mem_cons_self w ws)))
      · rw [if_neg hce]
        push_neg at hcond
        have hlen : cl.length + 1 + w.length ≤ m := hcond hce
        refine Or.inr (Or.inl ?_)
        simp only [List.length_append, List.length_cons]
        omega

theorem wrapLoop_chars (m : Nat) :
    ∀ (ws : List (List Char)) (cl : List Char) (l : List Char),
      l ∈ wrapLoop m cl ws →
      ∀ a ∈ l, a ∈ cl ∨ a = ' ' ∨ ∃ w ∈ ws, a ∈ w := by
  intro ws
  induction ws with
  | nil =>
    intro cl l hl a ha
    simp only [wrapLoop] at hl
    by_cases hce : cl.isEmpty
    · rw [if_pos hce] at hl
      simp at hl
    · rw [if_neg hce] at hl
      rcases List.mem_singleton.mp hl with rfl
      exact Or.inl ha
  | cons w ws ih =>
    intro cl l hl a ha
    simp only [wrapLoop] at hl
    by_cases hcond : ¬cl.isEmpty ∧ cl.length + 1 + w.length > m
    · rw [if_pos hcond] at hl
      rcases List.mem_cons.mp hl with rfl | hl₂
      · exact Or.inl ha
      · rcases ih w l hl₂ a ha with h | h | ⟨w₂, hw₂, haw⟩
        · exact Or.inr (Or.inr ⟨w, List.mem_cons_self w ws, h⟩)
        · exact Or.inr (Or.inl h)
        · exact Or.inr (Or.inr ⟨w₂, List.mem_cons_of_mem w hw₂, haw⟩)
    · rw [if_neg hcond] at hl
      rcases ih _ l hl a ha with h | h | ⟨w₂, hw₂, haw⟩
      · by_cases hce : cl.isEmpty
        · rw [if_pos hce] at h
          exact Or.inr (Or.inr ⟨w, List.mem_cons_self w ws, h⟩)
        · rw [if_neg hce] at h
          rcases List.mem_append.mp h with h | h
          · exact Or.inl h
          · rcases List.mem_cons.mp h with rfl | h
            · exact Or.inr (Or.inl rfl)
            · exact Or.inr (Or.inr ⟨w, List.mem_cons_self w ws, h⟩)
      · exact Or.inr (Or.inl h)
      · exact Or.inr (Or.inr ⟨w₂, List.mem_cons_of_mem w hw₂, haw⟩)

theorem wrapLine_lines (m : Nat) (line : List Char) (hnl : '\n' ∉ line) :
    ∀ l ∈ splitOnChar '\n' (wrapLine m line),
      l.length ≤ m ∨ (m < l.length ∧ ' ' ∉ l ∧ l ∈ splitOnChar ' ' line) := by
  unfold wrapLine
  by_cases hlen : line.length ≤ m
  · rw [if_pos hlen, splitOnChar_of_not_mem _ _ hnl]
    intro l hl
    rcases List.mem_singleton.mp hl with rfl
    exact Or.inl hlen
  · rw [if_neg hlen]
    have hmem : ∀ l ∈ wrapLoop m [] (splitOnChar ' ' line),
        l.length ≤ m ∨ l ∈ splitOnChar ' ' line :=
      wrapLoop_mem m (splitOnChar ' ' line) (splitOnChar ' ' line) []
        (fun _ h => h) (Or.inl rfl)
    have hnonl : ∀ l ∈ wrapLoop m [] (splitOnChar ' ' line), '\n' ∉ l := by
      intro l hl hmem₂
      rcases wrapLoop_chars m (splitOnChar ' ' line) [] l hl '\n' hmem₂ with
        h | h | ⟨w, hw, hmemw⟩
      · simp at h
      · exact absurd h (by decide)
      · exact hnl (mem_of_mem_splitOnChar ' ' line w hw '\n' hmemw)
    cases hL : wrapLoop m [] (splitOnChar ' ' line) with
    | nil =>
      intro l hl
      simp only [joinWith, splitOnChar, List.mem_singleton] at hl
      subst hl
      exact Or.inl (by simp)
    | cons l0 ls =>
      intro l hl
      have hnonl₂ : ∀ p ∈ l0 :: ls, '\n' ∉ p := by
        rw [← hL]; exact hnonl
      rw [splitOnChar_joinWith '\n' _ (by simp),
        flatMap_eq_self_of_singleton _ _
          (fun p hp => splitOnChar_of_not_mem '\n' p (hnonl₂ p hp))] at hl
      have hl₂ : l ∈ wrapLoop m [] (splitOnChar ' ' line) := by
        rw [hL]; exact hl
      rcases hmem l hl₂ with h | h
      · exact Or.inl h
      · by_cases hlm : l.length ≤ m
        · exact Or.inl hlm
        · exact Or.inr ⟨not_le.mp hlm,
            fun hsp => sep_not_mem_splitOnChar ' ' line l h hsp, h⟩

/-- C6: Word-wrap line-length bound — the lines of
`wrapTextSimple text maxChars` are exactly the concatenation, input line
by input line, of the lines produced by wrapping that input line alone
(explicit newlines are wrapped independently and never merged), and
every output line either fits in `maxChars` or is a single space-free
word of its input line standing alone, unsplit. -/
theorem c6_word_wrap_line_bound (text : List Char) (m : Nat) (hm : 1 ≤ m) :
    splitOnChar '\n' (wrapTextSimple m text)
        = (splitOnChar '\n' text).flatMap
            (fun line => splitOnChar '\n' (wrapLine m line)) ∧
    ∀ line ∈ splitOnChar '\n' text, ∀ l ∈ splitOnChar '\n' (wrapLine m line),
      l.length ≤ m ∨ (m < l.length ∧ ' ' ∉ l ∧ l ∈ splitOnChar ' ' line) := by
  constructor
  · unfold wrapTextSimple
    by_cases hn : '\n' ∈ text
    · rw [if_pos hn,
        splitOnChar_joinWith '\n' _
          (by
            intro hmap
            exact splitOnChar_ne_nil '\n' text (List.map_eq_nil_iff.mp hmap))]
      simp [List.flatMap_map]
    · rw [if_neg hn, splitOnChar_of_not_mem _ _ hn]
      simp [List.flatMap_cons]
  · intro line hline
    exact wrapLine_lines m line (sep_not_mem_splitOnChar '\n' text line hline)

/-- Witness for C6: wrapping `hi supercalifragilistic` at 5 characters
leaves the over-long word on a line of its own, unsplit. -/
theorem c6_word_wrap_witness :
    ("supercalifragilistic".data).length ≤ 5 ∨
      (5 < ("supercalifragilistic".data).length ∧
        ' ' ∉ ("supercalifragilistic".data) ∧
        ("supercalifragilistic".data) ∈
          splitOnChar ' ' ("hi supercalifragilistic".data)) :=
  (c6_word_wrap_line_bound ("hi supercalifragilistic".data) 5 (by decide)).2
    ("hi supercalifragilistic".data) (by decide)
    ("supercalifragilistic".data) (by decide)

/-- List-consuming form of `offsetsLoop`: each step emits
`currentTime - t` and accumulates the defaulted duration of the element
it consumes. -/
def offsetsList (t : ℚ) : ℚ → List ℚ → List ℚ
  | _, [] => []
  | time, d :: rest => (time - t) :: offsetsList t (time + defDur d) rest

theorem defDur_of_pos (d : ℚ) (h : 0 < d) : defDur d = d := by
  unfold defDur
  rw [if_neg (ne_of_gt h)]

theorem xfadeLoop_eq_zipWith (q2s : ℚ → String) (tname : String) (t : ℚ)
    (n : Nat) (ds : List ℚ) :
    ∀ (k i : Nat) (out : String) (time : ℚ),
      xfadeLoop q2s tname t n ds k i out time
        = List.zipWith (xfadeFilterStr q2s tname t)
            (padsLoop n k i out) (offsetsLoop t ds k i time) := by
  intro k
  induction k with
  | zero => intro i out time; rfl
  | succ k ih =>
    intro i out time
    simp only [xfadeLoop, padsLoop, offsetsLoop, List.zipWith_cons_cons]
    rw [ih]

theorem offsetsLoop_eq_offsetsList (t : ℚ) (ds : List ℚ) :
    ∀ (k i : Nat) (time : ℚ), i + k ≤ ds.length →
      offsetsLoop t ds k i time = offsetsList t time ((ds.drop i).take k) := by
  intro k
  induction k with
  | zero => intro i time _; simp [offsetsLoop, offsetsList]
  | succ k ih =>
    intro i time h
    have hi : i < ds.length := by omega
    have hdrop : ds.drop i = ds[i] :: ds.drop (i + 1) := List.drop_eq_getElem_cons hi
    simp only [offsetsLoop]
    rw [hdrop, List.take_succ_cons]
    simp only [offsetsList]
    rw [List.getD_eq_getElem ds 0 hi]
    exact congrArg _ (ih (i + 1) _ (by omega))

theorem offsetsList_eq_map (t : ℚ) :
    ∀ (l : List ℚ) (time : ℚ),
      offsetsList t time l = (List.range l.length).map
        (fun j => time + ((l.take j).map defDur).sum - t) := by
  intro l
  induction l with
  | nil => intro time; simp [offsetsList]
  | cons d rest ih =>
    intro time
    simp only [offsetsList, List.length_cons]
    rw [List.range_succ_eq_map, List.map_cons, List.map_map, ih (time + defDur d)]
    congr 1
    · simp
    · apply List.map_congr_left
      intro j hj
      simp only [Function.comp, List.take_succ_cons, List.map_cons, List.sum_cons]
      ring

theorem transitionOffsets_formula (t : ℚ) (ds : List ℚ) (h2 : 2 ≤ ds.length)
    (hpos : ∀ d ∈ ds, 0 < d) :
    transitionOffsets t ds.length ds
      = (List.range (ds.length - 1)).map (fun j => (ds.take (j + 1)).sum - t) := by
  obtain ⟨d0, rest, rfl⟩ : ∃ d0 rest, ds = d0 :: rest := by
    cases ds with
    | nil => simp at h2
    | cons a l => exact ⟨a, l, rfl⟩
  have hd0 : defDur d0 = d0 := defDur_of_pos d0 (hpos d0 (List.mem_cons_self d0 rest))
  unfold transitionOffsets
  have hgd : (d0 :: rest).getD 0 0 = d0 := rfl
  rw [hgd, hd0,
    offsetsLoop_eq_offsetsList t (d0 :: rest) ((d0 :: rest).length - 1) 1 d0
      (by simp only [List.length_cons]; omega)]
  simp only [List.length_cons, Nat.add_sub_cancel, List.drop_succ_cons,
    List.drop_zero, List.take_length]
  rw [offsetsList_eq_map]
  apply List.map_congr_left
  intro j hj
  have hmap : (rest.take j).map defDur = rest.take j := by
    have hx : ∀ x ∈ rest.take j, defDur x = x := fun x hx =>
      defDur_of_pos x (hpos x (List.mem_cons_of_mem d0 (List.mem_of_mem_take hx)))
    calc (rest.take j).map defDur = (rest.take j).map id := List.map_congr_left hx
      _ = rest.take j := List.map_id _
  rw [hmap, List.take_succ_cons, List.sum_cons]

/-- C2: Transition offset formula and monotonicity — the filter string
built by `buildTransitionFilter` is the scale/pad stages followed by one
xfade stage per transition, paired in order with exactly the offsets in
`transitionOffsets`; for positive clip durations `d0..dn-1` the offset
of transition `i` (1-based) is `sum(d0..d(i-1)) - t`, accumulated
left-to-right over each clip's own declared duration; and when every
`di > t` the offsets are strictly increasing. -/
theorem c2_transition_offset_monotonicity (q2s : ℚ → String)
    (clipPaths : List String) (ty : String) (t fps : ℚ) (ds : List ℚ)
    (hlen : clipPaths.length = ds.length) (h2 : 2 ≤ ds.length)
    (hpos : ∀ d ∈ ds, 0 < d) :
    buildTransitionFilter q2s clipPaths ty t fps ds
      = String.intercalate ";" ((List.range ds.length).map scaleFilter ++
          List.zipWith (xfadeFilterStr q2s (getTransitionName ty) t)
            (padsLoop ds.length (ds.length - 1) 1 "v0")
            (transitionOffsets t ds.length ds)) ∧
    transitionOffsets t ds.length ds
      = (List.range (ds.length - 1)).map (fun j => (ds.take (j + 1)).sum - t) ∧
    ((∀ d ∈ ds, t < d) →
      List.Chain' (· < ·) (transitionOffsets t ds.length ds)) := by
  refine ⟨?_, transitionOffsets_formula t ds h2 hpos, ?_⟩
  · simp only [buildTransitionFilter, transitionOffsets]
    rw [hlen, xfadeLoop_eq_zipWith]
  · intro _
    rw [transitionOffsets_formula t ds h2 hpos, List.chain'_iff_get]
    intro i h
    simp only [List.length_map, List.length_range] at h
    have hsucc : i + 1 < ds.length := by omega
    simp only [List.get_eq_getElem, List.getElem_map, List.getElem_range]
    have hfin : (ds.take (i + 1 + 1)).sum
        = (ds.take (i + 1)).sum + ds.get ⟨i + 1, hsucc⟩ :=
      ds.sum_take_succ (i + 1) hsucc
    have hpos2 : 0 < ds.get ⟨i + 1, hsucc⟩ := hpos _ (List.get_mem ds (i + 1) hsucc)
    rw [hfin]
    linarith

/-- Witness for C2 at the spec's end-to-end example: durations
`[3, 4, 3]` with transition duration `0.5` give offsets `[2.5, 6.5]`. -/
theorem c2_transition_offset_witness :
    transitionOffsets 0.5 3 [3, 4, 3] = [2.5, 6.5] := by
  have h := (c2_transition_offset_monotonicity toFixed3Str
    ["clip-0.mp4", "clip-1.mp4", "clip-2.mp4"] "fade" 0.5 30 [3, 4, 3] rfl
    (by norm_num)
    (by intro d hd; fin_cases hd <;> norm_num)).2.1
  rw [show ([3, 4, 3] : List ℚ).length = 3 from rfl] at h
  rw [h]
  simp only [show (3 : Nat) - 1 = 2 from rfl, List.range_succ, List.range_zero,
    List.map_append, List.map_cons, List.map_nil, List.nil_append,
    List.take_succ_cons, List.take_zero, List.sum_cons, List.sum_nil]
  norm_num

theorem round_toFixed3_mul (q : ℚ) :
    round (toFixed3 q * 1000) = round (q * 1000) := by
  unfold toFixed3
  rw [div_mul_cancel₀ _ (by norm_num : (1000 : ℚ) ≠ 0), round_intCast]

theorem toFixed3Str_toFixed3 (q : ℚ) :
    toFixed3Str (toFixed3 q) = toFixed3Str q := by
  unfold toFixed3Str
  rw [round_toFixed3_mul]

/-- The string returned by `buildAlphaExpression` is exactly the
rendering of the syntax tree `buildAlphaExpr`, wrapped in single quotes:
the tree is the parse of the emitted expression. -/
theorem buildAlphaExpression_eq_render (fis fie fos foe : ℚ) :
    buildAlphaExpression fis fie fos foe
      = String.singleton quoteChar ++ renderE (buildAlphaExpr fis fie fos foe)
          ++ String.singleton quoteChar := by
  apply String.ext
  simp only [buildAlphaExpression, buildAlphaExpr, renderE, toFixed3Str_toFixed3]
  simp [String.data_append]

/-- C8: Zero-length fade window safety — when `fadeInEnd = fadeInStart`
and `fadeOutEnd = fadeOutStart`, the alpha expression emitted by
`buildAlphaExpression` (whose parse tree is `buildAlphaExpr`, first
conjunct) evaluates under the engine's lazy `if` semantics to a
well-defined step function at every time `t`: the ramp branches whose
divisors are the zero-length window durations sit behind
strictly-earlier `lt` guards and are unreachable, so no division by a
zero fade duration is ever performed and the result is never
undefined. -/
theorem c8_zero_length_fade_step (fis fie fos foe : ℚ)
    (hin : fie = fis) (hout : foe = fos) (t : ℚ) :
    buildAlphaExpression fis fie fos foe
        = String.singleton quoteChar ++ renderE (buildAlphaExpr fis fie fos foe)
            ++ String.singleton quoteChar ∧
    evalE (buildAlphaExpr fis fie fos foe) t
      = some (if t < toFixed3 fis then 0 else if t < toFixed3 fos then 1 else 0) := by
  refine ⟨buildAlphaExpression_eq_render fis fie fos foe, ?_⟩
  subst hin
  subst hout
  by_cases h1 : t < toFixed3 fie <;> by_cases h2 : t < toFixed3 foe <;>
    simp [buildAlphaExpr, evalE, h1, h2]

/-- Witness for C8: an instant show at `t = 1` with an instant hide at
`t = 2`, evaluated at time `0`. -/
theorem c8_zero_length_fade_witness :
    (buildAlphaExpression 1 1 2 2
        = String.singleton quoteChar ++ renderE (buildAlphaExpr 1 1 2 2)
            ++ String.singleton quoteChar) ∧
    evalE (buildAlphaExpr 1 1 2 2) 0
      = some (if (0 : ℚ) < toFixed3 1 then 0
          else if (0 : ℚ) < toFixed3 2 then 1 else 0) :=
  c8_zero_length_fade_step 1 1 2 2 rfl rfl 0

end FFmpegService
